import Mathlib

/-!
Verification of the modbus-core codec.

The `Request`, `Response` and `Exception` types are embedded from
`src/lib.rs`.  The PDU codec (`encode`/`decode`), the RTU frame codec and
the CRC16 routine are declared by the crate (`pub mod rtu`, spec §4.1-4.3)
but their source file is not part of the packaged sources, so they are
modelled from the spec as noted on each definition.

Machine integers (u8/u16) are modelled as `Nat` with explicit bounds where
they matter; byte sequences are `List Nat`.
-/

namespace ModbusCore

/-- Embedded from `src/lib.rs`: a server (slave) exception, nine variants. -/
inductive Exception where
  | IllegalFunction
  | IllegalDataAddress
  | IllegalDataValue
  | ServerDeviceFailure
  | Acknowledge
  | ServerDeviceBusy
  | MemoryParityError
  | GatewayPathUnavailable
  | GatewayTargetDevice
  deriving DecidableEq, Fintype, Repr

/-- Embedded from `src/lib.rs`: the discriminant values of `enum Exception`. -/
def Exception.code : Exception → Nat
  | .IllegalFunction => 0x01
  | .IllegalDataAddress => 0x02
  | .IllegalDataValue => 0x03
  | .ServerDeviceFailure => 0x04
  | .Acknowledge => 0x05
  | .ServerDeviceBusy => 0x06
  | .MemoryParityError => 0x08
  | .GatewayPathUnavailable => 0x0A
  | .GatewayTargetDevice => 0x0B

/-- Embedded from `src/lib.rs`: the `fmt::Display` description of each
exception value. -/
def Exception.description : Exception → String
  | .IllegalFunction => "Illegal function"
  | .IllegalDataAddress => "Illegal data address"
  | .IllegalDataValue => "Illegal data value"
  | .ServerDeviceFailure => "Server device failure"
  | .Acknowledge => "Acknowledge"
  | .ServerDeviceBusy => "Server device busy"
  | .MemoryParityError => "Memory parity error"
  | .GatewayPathUnavailable => "Gateway path unavailable"
  | .GatewayTargetDevice => "Gateway target device failed to respond"

/-- Modelled from the spec: the PDU decoder must map a received exception
code byte back to the typed `Exception` (spec §4.2, §6: the exception
payload byte is one of the nine codes 0x01-0x0B); the decoding function
itself is in the codec module missing from the packaged sources.  Inverse
of the discriminant table of `enum Exception`. -/
def Exception.fromCode : Nat → Option Exception
  | 0x01 => some .IllegalFunction
  | 0x02 => some .IllegalDataAddress
  | 0x03 => some .IllegalDataValue
  | 0x04 => some .ServerDeviceFailure
  | 0x05 => some .Acknowledge
  | 0x06 => some .ServerDeviceBusy
  | 0x08 => some .MemoryParityError
  | 0x0A => some .GatewayPathUnavailable
  | 0x0B => some .GatewayTargetDevice
  | _ => none

/-- Embedded from `src/lib.rs`: `Request` (without the
`#[cfg(feature = "rtu")]`-gated variants).  Borrowed slices become lists;
`Address`, `Quantity`, `Word` (u16) and `FunctionCode` (u8) become `Nat`. -/
inductive Request where
  | ReadCoils (addr q : Nat)
  | ReadDiscreteInputs (addr q : Nat)
  | WriteSingleCoil (addr : Nat) (coil : Bool)
  | WriteMultipleCoils (addr : Nat) (coils : List Bool)
  | ReadInputRegisters (addr q : Nat)
  | ReadHoldingRegisters (addr q : Nat)
  | WriteSingleRegister (addr w : Nat)
  | WriteMultipleRegisters (addr : Nat) (ws : List Nat)
  | ReadWriteMultipleRegisters (raddr rq waddr : Nat) (ws : List Nat)
  | Custom (code : Nat) (payload : List Nat)
  deriving DecidableEq, Repr

/-- Embedded from `src/lib.rs`: `Response` (without the
`#[cfg(feature = "rtu")]`-gated variants). -/
inductive Response where
  | ReadCoils (coils : List Bool)
  | ReadDiscreteInputs (coils : List Bool)
  | WriteSingleCoil (addr : Nat)
  | WriteMultipleCoils (addr q : Nat)
  | ReadInputRegisters (ws : List Nat)
  | ReadHoldingRegisters (ws : List Nat)
  | WriteSingleRegister (addr w : Nat)
  | WriteMultipleRegisters (addr q : Nat)
  | ReadWriteMultipleRegisters (ws : List Nat)
  | Custom (code : Nat) (payload : List Nat)
  deriving DecidableEq, Repr

/-- The error kinds of the codec (spec §7). -/
inductive Error where
  | InvariantViolation
  | MalformedFrame
  | ChecksumMismatch
  | ServerException (e : Exception)
  deriving DecidableEq, Repr

instance exceptDecEq {ε α : Type} [DecidableEq ε] [DecidableEq α] :
    DecidableEq (Except ε α) := fun x y =>
  match x, y with
  | .ok a, .ok b =>
      if h : a = b then .isTrue (by rw [h])
      else .isFalse (fun hc => h (Except.ok.inj hc))
  | .error e, .error f =>
      if h : e = f then .isTrue (by rw [h])
      else .isFalse (fun hc => h (Except.error.inj hc))
  | .ok _, .error _ => .isFalse (fun hc => Except.noConfusion hc)
  | .error _, .ok _ => .isFalse (fun hc => Except.noConfusion hc)

/-- Big-endian byte pair of a 16-bit value (spec §3: words and all 16-bit
fields are transmitted most significant byte first). -/
def be16 (x : Nat) : List Nat := [x / 256, x % 256]

/-- Recombine a big-endian byte pair into the 16-bit value. -/
def u16be (hi lo : Nat) : Nat := hi * 256 + lo

/-- Modelled from the spec (§3, §8 bit-packing): pack up to eight coils
into one byte, least-significant bit first, unused high bits zero. -/
def packByte (bs : List Bool) : Nat :=
  bs.foldr (fun b acc => 2 * acc + (if b then 1 else 0)) 0

/-- Modelled from the spec (§3): bit-packed coil array, eight coils per
byte, LSB first, final byte padded with zero bits. -/
def packCoils : List Bool → List Nat
  | [] => []
  | b0 :: b1 :: b2 :: b3 :: b4 :: b5 :: b6 :: b7 :: rest =>
      packByte [b0, b1, b2, b3, b4, b5, b6, b7] :: packCoils rest
  | bs => [packByte bs]

/-- Unpack one byte into its eight coil bits, LSB first. -/
def byteToBits (b : Nat) : List Bool :=
  (List.range 8).map (fun i => b.testBit i)

/-- Unpack a bit-packed coil payload: eight coils per byte, LSB first. -/
def unpackCoils (bytes : List Nat) : List Bool :=
  bytes.flatMap byteToBits

/-- Serialize a word list, each word as a big-endian byte pair. -/
def wordsToBytes (ws : List Nat) : List Nat := ws.flatMap be16

/-- Inverse of `wordsToBytes`: pair up bytes big-endian. -/
def bytesToWords : List Nat → List Nat
  | hi :: lo :: rest => u16be hi lo :: bytesToWords rest
  | _ => []

/-- Modelled from the spec (§4.3, glossary): one CRC16 shift step, Modbus
variant: shift right one bit, conditionally xor the reflected polynomial
0xA001 when the bit shifted out was set. -/
def crcBit (crc : Nat) : Nat :=
  if crc % 2 = 1 then (crc / 2) ^^^ 0xA001 else crc / 2

/-- Modelled from the spec (§4.3): fold one byte into the CRC16 state:
xor the byte in, then run eight shift steps. -/
def crcByte (crc b : Nat) : Nat := crcBit^[8] (crc ^^^ b)

/-- Modelled from the spec (§4.3): CRC16, Modbus variant — polynomial
0xA001 (reflected), initial value 0xFFFF, no final xor, processed one
byte at a time. -/
def crc16 (data : List Nat) : Nat := data.foldl crcByte 0xFFFF

/-- Modelled from the spec (§4.3): RTU frame encode —
`frame = [address] ++ pdu ++ crc16(address ++ pdu)`, CRC low byte first. -/
def rtuEncode (addr : Nat) (pdu : List Nat) : List Nat :=
  let body := addr :: pdu
  body ++ [crc16 body % 256, crc16 body / 256]

/-- Modelled from the spec (§4.3): RTU frame decode — minimum-length check,
CRC16 over all bytes but the trailing two compared against the transmitted
CRC (low byte first); on match, strip address and CRC and return
`(address, pdu_bytes)`. -/
def rtuDecode (frame : List Nat) : Except Error (Nat × List Nat) :=
  if frame.length < 4 then .error .MalformedFrame
  else if crc16 (frame.take (frame.length - 2)) =
      frame.getD (frame.length - 2) 0 + 256 * frame.getD (frame.length - 1) 0 then
    .ok (frame.getD 0 0, (frame.drop 1).take (frame.length - 3))
  else .error .ChecksumMismatch

/-- Modelled from the spec (§4.1): PDU encode for requests.  Function code
followed by the function-specific layout; quantity invariants (§3: read
coils/discrete inputs 1-2000, read registers 1-125, write multiple
registers 1-123, write multiple coils 1-1968) are checked here, slice
lengths are the transmitted quantity, byte counts must fit one byte.
Failures are `InvariantViolation`.  The codec source is missing from the
packaged sources; standard Modbus function codes are used. -/
def encodeRequest : Request → Except Error (List Nat)
  | .ReadCoils a q =>
      if 1 ≤ q ∧ q ≤ 2000 then .ok (0x01 :: (be16 a ++ be16 q))
      else .error .InvariantViolation
  | .ReadDiscreteInputs a q =>
      if 1 ≤ q ∧ q ≤ 2000 then .ok (0x02 :: (be16 a ++ be16 q))
      else .error .InvariantViolation
  | .WriteSingleCoil a c =>
      .ok (0x05 :: (be16 a ++ if c then [0xFF, 0x00] else [0x00, 0x00]))
  | .WriteMultipleCoils a coils =>
      let q := coils.length
      if 1 ≤ q ∧ q ≤ 1968 then
        .ok (0x0F :: (be16 a ++ be16 q ++ ((q + 7) / 8 :: packCoils coils)))
      else .error .InvariantViolation
  | .ReadInputRegisters a q =>
      if 1 ≤ q ∧ q ≤ 125 then .ok (0x04 :: (be16 a ++ be16 q))
      else .error .InvariantViolation
  | .ReadHoldingRegisters a q =>
      if 1 ≤ q ∧ q ≤ 125 then .ok (0x03 :: (be16 a ++ be16 q))
      else .error .InvariantViolation
  | .WriteSingleRegister a w =>
      .ok (0x06 :: (be16 a ++ be16 w))
  | .WriteMultipleRegisters a ws =>
      let q := ws.length
      if 1 ≤ q ∧ q ≤ 123 then
        .ok (0x10 :: (be16 a ++ be16 q ++ (2 * q :: wordsToBytes ws)))
      else .error .InvariantViolation
  | .ReadWriteMultipleRegisters ra rq wa ws =>
      let wq := ws.length
      if (1 ≤ rq ∧ rq ≤ 125) ∧ (1 ≤ wq ∧ wq ≤ 123) then
        .ok (0x17 :: (be16 ra ++ be16 rq ++ be16 wa ++ be16 wq ++
              (2 * wq :: wordsToBytes ws)))
      else .error .InvariantViolation
  | .Custom fc payload => .ok (fc :: payload)

/-- Modelled from the spec (§4.2): PDU decode in the request direction.
First byte is the function code; known codes use the layout symmetric to
encode, byte counts are validated against the remaining buffer
(`MalformedFrame` on mismatch), quantity ranges are validated per
function; unknown codes fall back to `Custom`. -/
def decodeRequest : List Nat → Except Error Request
  | [] => .error .MalformedFrame
  | fc :: rest =>
    match fc with
    | 0x01 =>
        match rest with
        | [ah, al, qh, ql] =>
            let q := u16be qh ql
            if 1 ≤ q ∧ q ≤ 2000 then .ok (.ReadCoils (u16be ah al) q)
            else .error .MalformedFrame
        | _ => .error .MalformedFrame
    | 0x02 =>
        match rest with
        | [ah, al, qh, ql] =>
            let q := u16be qh ql
            if 1 ≤ q ∧ q ≤ 2000 then .ok (.ReadDiscreteInputs (u16be ah al) q)
            else .error .MalformedFrame
        | _ => .error .MalformedFrame
    | 0x03 =>
        match rest with
        | [ah, al, qh, ql] =>
            let q := u16be qh ql
            if 1 ≤ q ∧ q ≤ 125 then .ok (.ReadHoldingRegisters (u16be ah al) q)
            else .error .MalformedFrame
        | _ => .error .MalformedFrame
    | 0x04 =>
        match rest with
        | [ah, al, qh, ql] =>
            let q := u16be qh ql
            if 1 ≤ q ∧ q ≤ 125 then .ok (.ReadInputRegisters (u16be ah al) q)
            else .error .MalformedFrame
        | _ => .error .MalformedFrame
    | 0x05 =>
        match rest with
        | [ah, al, vh, vl] =>
            if vh = 0xFF ∧ vl = 0x00 then .ok (.WriteSingleCoil (u16be ah al) true)
            else if vh = 0x00 ∧ vl = 0x00 then .ok (.WriteSingleCoil (u16be ah al) false)
            else .error .MalformedFrame
        | _ => .error .MalformedFrame
    | 0x06 =>
        match rest with
        | [ah, al, wh, wl] => .ok (.WriteSingleRegister (u16be ah al) (u16be wh wl))
        | _ => .error .MalformedFrame
    | 0x0F =>
        match rest with
        | ah :: al :: qh :: ql :: bc :: payload =>
            let q := u16be qh ql
            if (1 ≤ q ∧ q ≤ 1968) ∧ bc = (q + 7) / 8 ∧ payload.length = bc then
              .ok (.WriteMultipleCoils (u16be ah al) ((unpackCoils payload).take q))
            else .error .MalformedFrame
        | _ => .error .MalformedFrame
    | 0x10 =>
        match rest with
        | ah :: al :: qh :: ql :: bc :: payload =>
            let q := u16be qh ql
            if (1 ≤ q ∧ q ≤ 123) ∧ bc = 2 * q ∧ payload.length = bc then
              .ok (.WriteMultipleRegisters (u16be ah al) (bytesToWords payload))
            else .error .MalformedFrame
        | _ => .error .MalformedFrame
    | 0x17 =>
        match rest with
        | rah :: ral :: rqh :: rql :: wah :: wal :: wqh :: wql :: bc :: payload =>
            let rq := u16be rqh rql
            let wq := u16be wqh wql
            if (1 ≤ rq ∧ rq ≤ 125) ∧ (1 ≤ wq ∧ wq ≤ 123) ∧ bc = 2 * wq ∧
                payload.length = bc then
              .ok (.ReadWriteMultipleRegisters (u16be rah ral) rq (u16be wah wal)
                    (bytesToWords payload))
            else .error .MalformedFrame
        | _ => .error .MalformedFrame
    | _ => .ok (.Custom fc rest)

/-- Modelled from the spec (§4.1): PDU encode for responses.  Read results
carry a one-byte byte-count followed by the packed payload; write echoes
carry address and quantity; byte counts must fit one byte. -/
def encodeResponse : Response → Except Error (List Nat)
  | .ReadCoils coils =>
      let bc := (coils.length + 7) / 8
      if bc ≤ 255 then .ok (0x01 :: bc :: packCoils coils)
      else .error .InvariantViolation
  | .ReadDiscreteInputs coils =>
      let bc := (coils.length + 7) / 8
      if bc ≤ 255 then .ok (0x02 :: bc :: packCoils coils)
      else .error .InvariantViolation
  | .WriteSingleCoil a => .ok (0x05 :: be16 a)
  | .WriteMultipleCoils a q =>
      if 1 ≤ q ∧ q ≤ 1968 then .ok (0x0F :: (be16 a ++ be16 q))
      else .error .InvariantViolation
  | .ReadInputRegisters ws =>
      let bc := 2 * ws.length
      if bc ≤ 255 then .ok (0x04 :: bc :: wordsToBytes ws)
      else .error .InvariantViolation
  | .ReadHoldingRegisters ws =>
      let bc := 2 * ws.length
      if bc ≤ 255 then .ok (0x03 :: bc :: wordsToBytes ws)
      else .error .InvariantViolation
  | .WriteSingleRegister a w => .ok (0x06 :: (be16 a ++ be16 w))
  | .WriteMultipleRegisters a q =>
      if 1 ≤ q ∧ q ≤ 123 then .ok (0x10 :: (be16 a ++ be16 q))
      else .error .InvariantViolation
  | .ReadWriteMultipleRegisters ws =>
      let bc := 2 * ws.length
      if bc ≤ 255 then .ok (0x17 :: bc :: wordsToBytes ws)
      else .error .InvariantViolation
  | .Custom fc payload => .ok (fc :: payload)

/-- Modelled from the spec (§4.2): PDU decode in the response direction.
A function code with the high bit set makes the single remaining byte an
exception code, surfaced as the error-typed `ServerException` result.
Otherwise known codes use the layout symmetric to encode (read payloads
are sized by the transmitted byte-count), and unknown codes fall back to
`Custom`. -/
def decodeResponse : List Nat → Except Error Response
  | [] => .error .MalformedFrame
  | fc :: rest =>
    if 0x80 ≤ fc then
      match rest with
      | [e] =>
          match Exception.fromCode e with
          | some ex => .error (.ServerException ex)
          | none => .error .MalformedFrame
      | _ => .error .MalformedFrame
    else
      match fc with
      | 0x01 =>
          match rest with
          | bc :: payload =>
              if payload.length = bc then .ok (.ReadCoils (unpackCoils payload))
              else .error .MalformedFrame
          | _ => .error .MalformedFrame
      | 0x02 =>
          match rest with
          | bc :: payload =>
              if payload.length = bc then .ok (.ReadDiscreteInputs (unpackCoils payload))
              else .error .MalformedFrame
          | _ => .error .MalformedFrame
      | 0x03 =>
          match rest with
          | bc :: payload =>
              if payload.length = bc ∧ bc % 2 = 0 then
                .ok (.ReadHoldingRegisters (bytesToWords payload))
              else .error .MalformedFrame
          | _ => .error .MalformedFrame
      | 0x04 =>
          match rest with
          | bc :: payload =>
              if payload.length = bc ∧ bc % 2 = 0 then
                .ok (.ReadInputRegisters (bytesToWords payload))
              else .error .MalformedFrame
          | _ => .error .MalformedFrame
      | 0x05 =>
          match rest with
          | [ah, al] => .ok (.WriteSingleCoil (u16be ah al))
          | _ => .error .MalformedFrame
      | 0x06 =>
          match rest with
          | [ah, al, wh, wl] => .ok (.WriteSingleRegister (u16be ah al) (u16be wh wl))
          | _ => .error .MalformedFrame
      | 0x0F =>
          match rest with
          | [ah, al, qh, ql] =>
              let q := u16be qh ql
              if 1 ≤ q ∧ q ≤ 1968 then .ok (.WriteMultipleCoils (u16be ah al) q)
              else .error .MalformedFrame
          | _ => .error .MalformedFrame
      | 0x10 =>
          match rest with
          | [ah, al, qh, ql] =>
              let q := u16be qh ql
              if 1 ≤ q ∧ q ≤ 123 then .ok (.WriteMultipleRegisters (u16be ah al) q)
              else .error .MalformedFrame
          | _ => .error .MalformedFrame
      | 0x17 =>
          match rest with
          | bc :: payload =>
              if payload.length = bc ∧ bc % 2 = 0 then
                .ok (.ReadWriteMultipleRegisters (bytesToWords payload))
              else .error .MalformedFrame
          | _ => .error .MalformedFrame
      | _ => .ok (.Custom fc rest)

/-- Field bounds of the data model for requests (spec §3): 16-bit
addresses/words, per-function quantity ranges, slice length is the
quantity. -/
def Request.valid : Request → Prop
  | .ReadCoils a q => a < 65536 ∧ 1 ≤ q ∧ q ≤ 2000
  | .ReadDiscreteInputs a q => a < 65536 ∧ 1 ≤ q ∧ q ≤ 2000
  | .WriteSingleCoil a _ => a < 65536
  | .WriteMultipleCoils a coils => a < 65536 ∧ 1 ≤ coils.length ∧ coils.length ≤ 1968
  | .ReadInputRegisters a q => a < 65536 ∧ 1 ≤ q ∧ q ≤ 125
  | .ReadHoldingRegisters a q => a < 65536 ∧ 1 ≤ q ∧ q ≤ 125
  | .WriteSingleRegister a w => a < 65536 ∧ w < 65536
  | .WriteMultipleRegisters a ws =>
      a < 65536 ∧ (1 ≤ ws.length ∧ ws.length ≤ 123) ∧ ∀ w ∈ ws, w < 65536
  | .ReadWriteMultipleRegisters ra rq wa ws =>
      ra < 65536 ∧ (1 ≤ rq ∧ rq ≤ 125) ∧ wa < 65536 ∧
        (1 ≤ ws.length ∧ ws.length ≤ 123) ∧ ∀ w ∈ ws, w < 65536
  | .Custom _ _ => True

/-- Field bounds of the data model for responses (spec §3). -/
def Response.valid : Response → Prop
  | .ReadCoils coils => (coils.length + 7) / 8 ≤ 255
  | .ReadDiscreteInputs coils => (coils.length + 7) / 8 ≤ 255
  | .WriteSingleCoil a => a < 65536
  | .WriteMultipleCoils a q => a < 65536 ∧ 1 ≤ q ∧ q ≤ 1968
  | .ReadInputRegisters ws => 2 * ws.length ≤ 255 ∧ ∀ w ∈ ws, w < 65536
  | .ReadHoldingRegisters ws => 2 * ws.length ≤ 255 ∧ ∀ w ∈ ws, w < 65536
  | .WriteSingleRegister a w => a < 65536 ∧ w < 65536
  | .WriteMultipleRegisters a q => a < 65536 ∧ 1 ≤ q ∧ q ≤ 123
  | .ReadWriteMultipleRegisters ws => 2 * ws.length ≤ 255 ∧ ∀ w ∈ ws, w < 65536
  | .Custom _ _ => True

/-- The `Custom` escape-hatch cases, excluded from the round-trip claim. -/
def Request.isCustom : Request → Prop
  | .Custom _ _ => True
  | _ => False

/-- The `Custom` escape-hatch cases, excluded from the round-trip claim. -/
def Response.isCustom : Response → Prop
  | .Custom _ _ => True
  | _ => False

/-! ### Helper lemmas: byte pairs and word lists -/

theorem u16be_be16 (x : Nat) : u16be (x / 256) (x % 256) = x := by
  simp only [u16be]
  omega

theorem bytesToWords_wordsToBytes (ws : List Nat) :
    bytesToWords (wordsToBytes ws) = ws := by
  induction ws with
  | nil => rfl
  | cons w t ih =>
      simp only [wordsToBytes, List.flatMap_cons, be16, List.cons_append,
        List.nil_append, bytesToWords, u16be_be16]
      exact congrArg _ ih

theorem wordsToBytes_length (ws : List Nat) :
    (wordsToBytes ws).length = 2 * ws.length := by
  induction ws with
  | nil => rfl
  | cons w t ih =>
      simp only [wordsToBytes, List.flatMap_cons, be16] at *
      simp [ih]; ring

/-! ### Helper lemmas: coil bit-packing -/

theorem packByte_cons (b : Bool) (t : List Bool) :
    packByte (b :: t) = 2 * packByte t + (if b then 1 else 0) := rfl

theorem packByte_lt (bs : List Bool) : packByte bs < 2 ^ bs.length := by
  induction bs with
  | nil => simp [packByte]
  | cons b t ih =>
      rw [packByte_cons]
      simp only [List.length_cons, pow_succ]
      cases b <;> simp <;> omega

theorem packByte_testBit (bs : List Bool) (i : Nat) :
    (packByte bs).testBit i = bs.getD i false := by
  induction bs generalizing i with
  | nil => simp [packByte, Nat.zero_testBit]
  | cons b t ih =>
      rw [packByte_cons]
      cases i with
      | zero =>
          rw [Nat.testBit_zero]
          cases b <;> simp [Nat.add_mul_mod_self_left] <;> omega
      | succ i =>
          rw [Nat.testBit_succ]
          have h2 : (2 * packByte t + (if b then 1 else 0)) / 2 = packByte t := by
            cases b <;> simp <;> omega
          rw [h2]
          simpa using ih i

theorem getD_map_range (bs : List Bool) (n : Nat) (h : bs.length ≤ n) :
    (List.range n).map (fun i => bs.getD i false) =
      bs ++ List.replicate (n - bs.length) false := by
  induction bs generalizing n with
  | nil =>
      simp only [List.nil_append, List.length_nil, Nat.sub_zero]
      simp [List.getD, List.eq_replicate_iff]
  | cons b t ih =>
      cases n with
      | zero => simp at h
      | succ m =>
          rw [List.range_succ_eq_map, List.map_cons, List.map_map]
          have : ((fun i => (b :: t).getD i false) ∘ Nat.succ) =
              fun i => t.getD i false := by
            funext i; simp [List.getD]
          rw [this]
          simp only [List.length_cons] at h
          rw [ih m (by omega)]
          simp [List.getD, Nat.succ_sub_succ]

theorem byteToBits_packByte (bs : List Bool) (h : bs.length ≤ 8) :
    byteToBits (packByte bs) = bs ++ List.replicate (8 - bs.length) false := by
  unfold byteToBits
  have : (fun i => (packByte bs).testBit i) = fun i => bs.getD i false := by
    funext i; exact packByte_testBit bs i
  rw [this, getD_map_range bs 8 h]

theorem packCoils_nil : packCoils [] = [] := rfl

theorem packCoils_ne_nil (bs : List Bool) (h : bs ≠ []) :
    packCoils bs = packByte (bs.take 8) :: packCoils (bs.drop 8) := by
  rcases bs with _ | ⟨b0, _ | ⟨b1, _ | ⟨b2, _ | ⟨b3, _ | ⟨b4, _ | ⟨b5, _ | ⟨b6, _ | ⟨b7, rest⟩⟩⟩⟩⟩⟩⟩⟩
  · exact absurd rfl h
  all_goals rfl

theorem packCoils_length (bs : List Bool) :
    (packCoils bs).length = (bs.length + 7) / 8 := by
  by_cases h : bs = []
  · subst h; simp [packCoils_nil]
  · rw [packCoils_ne_nil bs h]
    have hlen : 1 ≤ bs.length := by
      cases bs with
      | nil => exact absurd rfl h
      | cons x t => simp
    have ih := packCoils_length (bs.drop 8)
    simp only [List.length_cons, ih, List.length_drop]
    omega
  termination_by bs.length
  decreasing_by
    cases bs with
    | nil => exact absurd rfl h
    | cons x t => simp [List.length_drop]; omega

theorem unpackCoils_nil : unpackCoils [] = [] := rfl

theorem unpackCoils_cons (b : Nat) (t : List Nat) :
    unpackCoils (b :: t) = byteToBits b ++ unpackCoils t := by
  simp [unpackCoils]

theorem unpack_packCoils (bs : List Bool) :
    unpackCoils (packCoils bs) =
      bs ++ List.replicate ((bs.length + 7) / 8 * 8 - bs.length) false := by
  by_cases h : bs = []
  · subst h; simp [packCoils_nil, unpackCoils_nil]
  · rw [packCoils_ne_nil bs h, unpackCoils_cons]
    have hlen : 1 ≤ bs.length := by
      cases bs with
      | nil => exact absurd rfl h
      | cons x t => simp
    by_cases h8 : bs.length ≤ 8
    · have htake : bs.take 8 = bs := List.take_of_length_le h8
      have hdrop : bs.drop 8 = [] := List.drop_eq_nil_of_le h8
      rw [htake, hdrop, packCoils_nil, unpackCoils_nil,
        byteToBits_packByte bs h8]
      have : (bs.length + 7) / 8 * 8 - bs.length = 8 - bs.length := by omega
      simp [this]
    · have htl : (bs.take 8).length = 8 := by
        simp [List.length_take]; omega
      have ih := unpack_packCoils (bs.drop 8)
      rw [byteToBits_packByte (bs.take 8) (le_of_eq htl), htl]
      simp only [Nat.sub_self, List.replicate_zero, List.append_nil]
      rw [ih]
      simp only [List.length_drop]
      rw [← List.append_assoc, List.take_append_drop]
      have : (bs.length - 8 + 7) / 8 * 8 - (bs.length - 8) =
          (bs.length + 7) / 8 * 8 - bs.length := by omega
      rw [this]
  termination_by bs.length
  decreasing_by
    cases bs with
    | nil => exact absurd rfl h
    | cons x t => simp [List.length_drop]; omega

theorem take_unpack_packCoils (bs : List Bool) :
    (unpackCoils (packCoils bs)).take bs.length = bs := by
  rw [unpack_packCoils]
  have := List.take_left bs (List.replicate ((bs.length + 7) / 8 * 8 - bs.length) false)
  exact this

theorem unpack_packCoils_of_dvd (bs : List Bool) (h : bs.length % 8 = 0) :
    unpackCoils (packCoils bs) = bs := by
  rw [unpack_packCoils]
  have : (bs.length + 7) / 8 * 8 - bs.length = 0 := by omega
  simp [this]

theorem byteToBits_getD (b : Nat) (j : Nat) (hj : j < 8) :
    (byteToBits b).getD j false = b.testBit j := by
  simp [byteToBits, List.getD_eq_getElem?_getD, List.getElem?_map,
    List.getElem?_range hj]

theorem byteToBits_length (b : Nat) : (byteToBits b).length = 8 := by
  simp [byteToBits]

theorem unpackCoils_getD (bytes : List Nat) (k j : Nat)
    (hk : k < bytes.length) (hj : j < 8) :
    (unpackCoils bytes).getD (8 * k + j) false = (bytes.getD k 0).testBit j := by
  induction bytes generalizing k with
  | nil => simp at hk
  | cons b t ih =>
      rw [unpackCoils_cons]
      cases k with
      | zero =>
          simp only [Nat.mul_zero, Nat.zero_add]
          rw [List.getD_append _ _ _ _ (by rw [byteToBits_length]; omega)]
          rw [byteToBits_getD b j hj]
          rfl
      | succ k =>
          rw [List.getD_append_right _ _ _ _ (by rw [byteToBits_length]; omega)]
          rw [byteToBits_length]
          have h1 : 8 * (k + 1) + j - 8 = 8 * k + j := by omega
          rw [h1, ih k (by simpa using hk)]
          rfl

theorem getD_replicate_false (n m : Nat) :
    (List.replicate n false).getD m false = false := by
  rw [List.getD_eq_getElem?_getD, List.getElem?_replicate]
  split <;> rfl

theorem packCoils_testBit (bs : List Bool) (k j : Nat)
    (hk : k < (packCoils bs).length) (hj : j < 8) :
    ((packCoils bs).getD k 0).testBit j = bs.getD (8 * k + j) false := by
  rw [← unpackCoils_getD (packCoils bs) k j hk hj, unpack_packCoils]
  by_cases h : 8 * k + j < bs.length
  · rw [List.getD_append _ _ _ _ h]
  · rw [List.getD_append_right _ _ _ _ (by omega), getD_replicate_false,
      List.getD_eq_default _ _ (by omega)]

/-! ### Helper lemmas: CRC16 -/

theorem xor_div_two (x y : Nat) : (x ^^^ y) / 2 = x / 2 ^^^ y / 2 := by
  apply Nat.eq_of_testBit_eq
  intro i
  have h1 : ((x ^^^ y) / 2).testBit i = (x ^^^ y).testBit (i + 1) :=
    (Nat.testBit_succ (x ^^^ y) i).symm
  rw [h1, Nat.testBit_xor, Nat.testBit_xor, Nat.testBit_succ, Nat.testBit_succ]

theorem xor_right_comm (a b c : Nat) : a ^^^ b ^^^ c = a ^^^ c ^^^ b := by
  rw [Nat.xor_assoc, Nat.xor_comm b c, ← Nat.xor_assoc]

theorem xor_xor_cancel_right (a b c : Nat) : (a ^^^ c) ^^^ (b ^^^ c) = a ^^^ b := by
  rw [Nat.xor_assoc, Nat.xor_comm b c, ← Nat.xor_assoc c c b, Nat.xor_self,
    Nat.zero_xor]

theorem xor_mod_two (x y : Nat) :
    (x ^^^ y) % 2 = 1 ↔ ((x % 2 = 1) ↔ ¬(y % 2 = 1)) := by
  have h := Nat.testBit_xor x y 0
  simp only [Nat.testBit_zero] at h
  constructor
  · intro hx
    rw [hx] at h
    rcases Nat.mod_two_eq_zero_or_one x with h1 | h1 <;>
      rcases Nat.mod_two_eq_zero_or_one y with h2 | h2 <;>
        simp [h1, h2] at h ⊢
  · intro hx
    rcases Nat.mod_two_eq_zero_or_one x with h1 | h1 <;>
      rcases Nat.mod_two_eq_zero_or_one y with h2 | h2 <;>
        simp [h1, h2] at hx h ⊢ <;> omega

theorem crcBit_linear (x y : Nat) :
    crcBit (x ^^^ y) = crcBit x ^^^ crcBit y := by
  unfold crcBit
  rcases Nat.mod_two_eq_zero_or_one x with h1 | h1 <;>
    rcases Nat.mod_two_eq_zero_or_one y with h2 | h2
  · have hxy : (x ^^^ y) % 2 = 0 := by
      rcases Nat.mod_two_eq_zero_or_one (x ^^^ y) with h | h
      · exact h
      · rw [xor_mod_two] at h; omega
    simp only [h1, h2, hxy, reduceIte, Nat.zero_ne_one, if_false, xor_div_two]
  · have hxy : (x ^^^ y) % 2 = 1 := by rw [xor_mod_two]; omega
    simp only [h1, h2, hxy, reduceIte, Nat.zero_ne_one, if_false, xor_div_two]
    exact Nat.xor_assoc _ _ _
  · have hxy : (x ^^^ y) % 2 = 1 := by rw [xor_mod_two]; omega
    simp only [h1, h2, hxy, reduceIte, Nat.zero_ne_one, if_false, xor_div_two]
    exact xor_right_comm _ _ _
  · have hxy : (x ^^^ y) % 2 = 0 := by
      rcases Nat.mod_two_eq_zero_or_one (x ^^^ y) with h | h
      · exact h
      · rw [xor_mod_two] at h; omega
    simp only [h1, h2, hxy, reduceIte, Nat.zero_ne_one, if_false, xor_div_two]
    exact (xor_xor_cancel_right _ _ _).symm

theorem crcBit_lt (x : Nat) (h : x < 65536) : crcBit x < 65536 := by
  unfold crcBit
  have h2 : x / 2 < 32768 := by omega
  split
  · have : (65536 : Nat) = 2 ^ 16 := by norm_num
    rw [this]
    exact Nat.xor_lt_two_pow (by omega) (by norm_num)
  · omega

theorem crcBit_eq_zero (x : Nat) (hlt : x < 65536) (h : crcBit x = 0) : x = 0 := by
  unfold crcBit at h
  rcases Nat.mod_two_eq_zero_or_one x with h1 | h1
  · simp [h1] at h; omega
  · simp only [h1, reduceIte] at h
    rw [Nat.xor_eq_zero] at h
    omega

theorem crcIter_lt (m x : Nat) (h : x < 65536) : crcBit^[m] x < 65536 := by
  induction m generalizing x with
  | zero => simpa using h
  | succ n ih =>
      rw [Function.iterate_succ_apply]
      exact ih (crcBit x) (crcBit_lt x h)

theorem crcIter_ne_zero (m x : Nat) (hx : x ≠ 0) (hlt : x < 65536) :
    crcBit^[m] x ≠ 0 := by
  induction m generalizing x with
  | zero => simpa using hx
  | succ n ih =>
      rw [Function.iterate_succ_apply]
      refine ih (crcBit x) (fun h0 => hx (crcBit_eq_zero x hlt h0)) (crcBit_lt x hlt)

theorem crcIter_linear (m x y : Nat) :
    crcBit^[m] (x ^^^ y) = crcBit^[m] x ^^^ crcBit^[m] y := by
  induction m generalizing x y with
  | zero => simp
  | succ n ih =>
      simp only [Function.iterate_succ_apply]
      rw [crcBit_linear, ih]

theorem crcByte_linear (s e b : Nat) :
    crcByte (s ^^^ e) b = crcByte s b ^^^ crcBit^[8] e := by
  unfold crcByte
  rw [xor_right_comm s e b, crcIter_linear]

theorem crcByte_data_xor (s b e : Nat) :
    crcByte s (b ^^^ e) = crcByte s b ^^^ crcBit^[8] e := by
  unfold crcByte
  rw [← Nat.xor_assoc, crcIter_linear]

theorem foldl_crcByte_xor (xs : List Nat) (s e : Nat) :
    xs.foldl crcByte (s ^^^ e) =
      xs.foldl crcByte s ^^^ crcBit^[8 * xs.length] e := by
  induction xs generalizing s e with
  | nil => simp
  | cons b t ih =>
      simp only [List.foldl_cons, List.length_cons]
      rw [crcByte_linear, ih]
      have : 8 * (t.length + 1) = 8 * t.length + 8 := by ring
      rw [this, Function.iterate_add_apply]

theorem crcByte_lt (s b : Nat) (hs : s < 65536) (hb : b < 256) :
    crcByte s b < 65536 := by
  unfold crcByte
  refine crcIter_lt 8 _ ?_
  have : (65536 : Nat) = 2 ^ 16 := by norm_num
  rw [this]
  exact Nat.xor_lt_two_pow (by omega) (by omega)

theorem crc16_lt (xs : List Nat) (h : ∀ b ∈ xs, b < 256) : crc16 xs < 65536 := by
  unfold crc16
  have general : ∀ (l : List Nat) (s : Nat), s < 65536 → (∀ b ∈ l, b < 256) →
      l.foldl crcByte s < 65536 := by
    intro l
    induction l with
    | nil => intro s hs _; simpa using hs
    | cons b t ih =>
        intro s hs hl
        simp only [List.foldl_cons]
        exact ih (crcByte s b) (crcByte_lt s b hs (hl b (by simp)))
          (fun x hx => hl x (by simp [hx]))
  exact general xs 0xFFFF (by norm_num) h

/-- Corrupting one byte of the input (xor with a nonzero 16-bit error)
changes the CRC16. -/
theorem crc16_set_ne (xs : List Nat) (i e : Nat) (hi : i < xs.length)
    (he : e ≠ 0) (helt : e < 65536) :
    crc16 (xs.set i (xs.getD i 0 ^^^ e)) ≠ crc16 xs := by
  have hset := List.set_eq_take_cons_drop (xs.getD i 0 ^^^ e) hi
  have hxs : xs = xs.take i ++ xs.getD i 0 :: xs.drop (i + 1) := by
    conv_lhs => rw [← List.take_append_drop i xs]
    rw [List.drop_eq_getElem_cons hi]
    simp [List.getD_eq_getElem?_getD, List.getElem?_eq_getElem hi]
  unfold crc16
  rw [hset]
  conv_rhs => rw [hxs]
  rw [List.foldl_append, List.foldl_append]
  simp only [List.foldl_cons]
  set s := (xs.take i).foldl crcByte 0xFFFF with hs
  set b := xs.getD i 0 with hb
  rw [crcByte_data_xor, foldl_crcByte_xor]
  intro hcontra
  have hE : crcBit^[8 * (xs.drop (i + 1)).length] (crcBit^[8] e) ≠ 0 := by
    refine crcIter_ne_zero _ _ ?_ (crcIter_lt 8 e helt)
    exact crcIter_ne_zero 8 e he helt
  apply hE
  set A := (xs.drop (i + 1)).foldl crcByte (crcByte s b) with hA
  set E := crcBit^[8 * (xs.drop (i + 1)).length] (crcBit^[8] e) with hEdef
  have : A ^^^ E = A := hcontra
  have h2 : A ^^^ (A ^^^ E) = A ^^^ A := by rw [this]
  rwa [← Nat.xor_assoc, Nat.xor_self, Nat.zero_xor] at h2

/-! ### Helper lemmas: RTU framing -/

/-- Flip bit `j` of the byte at position `i` of a frame. -/
def flipBit (frame : List Nat) (i j : Nat) : List Nat :=
  frame.set i (frame.getD i 0 ^^^ 2 ^ j)

theorem rtuEncode_eq (addr : Nat) (pdu : List Nat) :
    rtuEncode addr pdu = (addr :: pdu) ++
      [crc16 (addr :: pdu) % 256, crc16 (addr :: pdu) / 256] := rfl

theorem rtuDecode_rtuEncode (addr : Nat) (pdu : List Nat) (hpdu : pdu ≠ []) :
    rtuDecode (rtuEncode addr pdu) = .ok (addr, pdu) := by
  have hlen : 1 ≤ pdu.length := List.length_pos.mpr hpdu
  set c := crc16 (addr :: pdu) with hc
  rw [rtuEncode_eq, ← hc]
  have hL : ((addr :: pdu) ++ [c % 256, c / 256]).length = pdu.length + 3 := by
    simp
  unfold rtuDecode
  rw [hL]
  rw [if_neg (by omega)]
  have ht : pdu.length + 3 - 2 = (addr :: pdu).length := by simp
  rw [ht, List.take_left]
  have hlo : ((addr :: pdu) ++ [c % 256, c / 256]).getD (addr :: pdu).length 0
      = c % 256 := by
    rw [List.getD_append_right _ _ _ _ (le_refl _), Nat.sub_self]
    rfl
  have hhi : ((addr :: pdu) ++ [c % 256, c / 256]).getD (pdu.length + 3 - 1) 0
      = c / 256 := by
    have h1 : pdu.length + 3 - 1 = (addr :: pdu).length + 1 := by simp
    rw [h1, List.getD_append_right _ _ _ _ (by omega)]
    simp
  rw [hlo, hhi]
  rw [if_pos (by omega)]
  have hg0 : ((addr :: pdu) ++ [c % 256, c / 256]).getD 0 0 = addr := rfl
  have hdrop : ((addr :: pdu) ++ [c % 256, c / 256]).drop 1
      = pdu ++ [c % 256, c / 256] := rfl
  rw [hg0, hdrop]
  have h3 : pdu.length + 3 - 3 = pdu.length := by omega
  rw [h3]
  have h4 : (pdu ++ [c % 256, c / 256]).take pdu.length = pdu :=
    List.take_left pdu _
  rw [h4]

theorem rtuDecode_flipBit (addr : Nat) (pdu : List Nat) (i j : Nat)
    (hpdu : pdu ≠ [])
    (hbytes : ∀ b ∈ addr :: pdu, b < 256)
    (hi : i < (addr :: pdu).length) (hj : j < 8) :
    rtuDecode (flipBit (rtuEncode addr pdu) i j) = .error .ChecksumMismatch := by
  have hlen : 1 ≤ pdu.length := List.length_pos.mpr hpdu
  set body := addr :: pdu with hbody
  set c := crc16 body with hc
  have hframe : rtuEncode addr pdu = body ++ [c % 256, c / 256] := rfl
  have hblen : body.length = pdu.length + 1 := by simp [hbody]
  -- the flipped frame keeps the CRC bytes and corrupts one body byte
  have hget : (body ++ [c % 256, c / 256]).getD i 0 = body.getD i 0 :=
    List.getD_append _ _ _ _ hi
  have hflip : flipBit (rtuEncode addr pdu) i j =
      body.set i (body.getD i 0 ^^^ 2 ^ j) ++ [c % 256, c / 256] := by
    unfold flipBit
    rw [hframe, hget, List.set_append_left _ _ hi]
  set body' := body.set i (body.getD i 0 ^^^ 2 ^ j) with hbody'
  have hblen' : body'.length = pdu.length + 1 := by
    simp [hbody', hblen]
  rw [hflip]
  have hL : (body' ++ [c % 256, c / 256]).length = pdu.length + 3 := by
    simp [hblen']
  unfold rtuDecode
  rw [hL, if_neg (by omega)]
  have ht : pdu.length + 3 - 2 = body'.length := by omega
  rw [ht, List.take_left]
  have hlo : (body' ++ [c % 256, c / 256]).getD body'.length 0 = c % 256 := by
    rw [List.getD_append_right _ _ _ _ (le_refl _), Nat.sub_self]
    rfl
  have hhi : (body' ++ [c % 256, c / 256]).getD (pdu.length + 3 - 1) 0
      = c / 256 := by
    have h1 : pdu.length + 3 - 1 = body'.length + 1 := by omega
    rw [h1, List.getD_append_right _ _ _ _ (by omega)]
    simp
  rw [hlo, hhi]
  have hne : crc16 body' ≠ c := by
    rw [hc, hbody']
    exact crc16_set_ne body i (2 ^ j) hi (by positivity)
      (by
        have h1 : (2 : Nat) ^ j ≤ 2 ^ 7 := Nat.pow_le_pow_right (by omega) (by omega)
        have h2 : (2 : Nat) ^ 7 = 128 := by norm_num
        omega)
  rw [if_neg (by omega)]

/-! ### Round-trip lemmas -/

theorem request_roundtrip (r : Request) (hv : r.valid) (hc : ¬ r.isCustom) :
    (encodeRequest r).bind decodeRequest = .ok r := by
  cases r with
  | ReadCoils a q =>
      obtain ⟨ha, hq1, hq2⟩ := hv
      simp [encodeRequest, hq1, hq2, Except.bind, be16, decodeRequest, u16be_be16]
  | ReadDiscreteInputs a q =>
      obtain ⟨ha, hq1, hq2⟩ := hv
      simp [encodeRequest, hq1, hq2, Except.bind, be16, decodeRequest, u16be_be16]
  | WriteSingleCoil a c =>
      cases c <;>
        simp [encodeRequest, Except.bind, be16, decodeRequest, u16be_be16]
  | WriteMultipleCoils a coils =>
      obtain ⟨ha, hq1, hq2⟩ := hv
      simp [encodeRequest, hq1, hq2, Except.bind, be16, decodeRequest, u16be_be16,
        packCoils_length, take_unpack_packCoils]
  | ReadInputRegisters a q =>
      obtain ⟨ha, hq1, hq2⟩ := hv
      simp [encodeRequest, hq1, hq2, Except.bind, be16, decodeRequest, u16be_be16]
  | ReadHoldingRegisters a q =>
      obtain ⟨ha, hq1, hq2⟩ := hv
      simp [encodeRequest, hq1, hq2, Except.bind, be16, decodeRequest, u16be_be16]
  | WriteSingleRegister a w =>
      simp [encodeRequest, Except.bind, be16, decodeRequest, u16be_be16]
  | WriteMultipleRegisters a ws =>
      obtain ⟨ha, ⟨hq1, hq2⟩, hw⟩ := hv
      simp [encodeRequest, hq1, hq2, Except.bind, be16, decodeRequest, u16be_be16,
        wordsToBytes_length, bytesToWords_wordsToBytes]
  | ReadWriteMultipleRegisters ra rq wa ws =>
      obtain ⟨hra, ⟨hrq1, hrq2⟩, hwa, ⟨hwq1, hwq2⟩, hw⟩ := hv
      simp [encodeRequest, hrq1, hrq2, hwq1, hwq2, Except.bind, be16,
        decodeRequest, u16be_be16, wordsToBytes_length, bytesToWords_wordsToBytes]
  | Custom fc payload => exact absurd trivial hc

/-- Responses whose bit-packed coil payload fills whole bytes. -/
def Response.coilsAligned : Response → Prop
  | .ReadCoils coils => coils.length % 8 = 0
  | .ReadDiscreteInputs coils => coils.length % 8 = 0
  | _ => True

theorem response_roundtrip (s : Response) (hv : s.valid) (hc : ¬ s.isCustom)
    (hal : s.coilsAligned) :
    (encodeResponse s).bind decodeResponse = .ok s := by
  cases s with
  | ReadCoils coils =>
      simp only [Response.valid] at hv
      simp only [Response.coilsAligned] at hal
      simp [encodeResponse, hv, Except.bind, decodeResponse, packCoils_length,
        unpack_packCoils_of_dvd coils hal]
  | ReadDiscreteInputs coils =>
      simp only [Response.valid] at hv
      simp only [Response.coilsAligned] at hal
      simp [encodeResponse, hv, Except.bind, decodeResponse, packCoils_length,
        unpack_packCoils_of_dvd coils hal]
  | WriteSingleCoil a =>
      simp [encodeResponse, Except.bind, be16, decodeResponse, u16be_be16]
  | WriteMultipleCoils a q =>
      obtain ⟨ha, hq1, hq2⟩ := hv
      simp [encodeResponse, hq1, hq2, Except.bind, be16, decodeResponse, u16be_be16]
  | ReadInputRegisters ws =>
      obtain ⟨hbc, hw⟩ := hv
      simp [encodeResponse, hbc, Except.bind, decodeResponse,
        wordsToBytes_length, bytesToWords_wordsToBytes, Nat.mul_mod_right]
  | ReadHoldingRegisters ws =>
      obtain ⟨hbc, hw⟩ := hv
      simp [encodeResponse, hbc, Except.bind, decodeResponse,
        wordsToBytes_length, bytesToWords_wordsToBytes, Nat.mul_mod_right]
  | WriteSingleRegister a w =>
      simp [encodeResponse, Except.bind, be16, decodeResponse, u16be_be16]
  | WriteMultipleRegisters a q =>
      obtain ⟨ha, hq1, hq2⟩ := hv
      simp [encodeResponse, hq1, hq2, Except.bind, be16, decodeResponse, u16be_be16]
  | ReadWriteMultipleRegisters ws =>
      obtain ⟨hbc, hw⟩ := hv
      simp [encodeResponse, hbc, Except.bind, decodeResponse,
        wordsToBytes_length, bytesToWords_wordsToBytes, Nat.mul_mod_right]
  | Custom fc payload => exact absurd trivial hc

/-! ### Claim theorems -/

/-- C1 (counterexample): the round-trip claim fails as stated: the valid,
non-Custom response `ReadCoils [true]` does not decode back to itself —
the decoder sizes the coil array by the transmitted byte-count, so the
single coil comes back padded to eight. -/
theorem C1_roundtrip_counterexample :
    Response.valid (.ReadCoils [true]) ∧ ¬ Response.isCustom (.ReadCoils [true]) ∧
    (encodeResponse (.ReadCoils [true])).bind decodeResponse ≠
      .ok (.ReadCoils [true]) := by
  refine ⟨by norm_num [Response.valid], by simp [Response.isCustom], by decide⟩

/-- C1 (amended): for every supported function variant other than `Custom`
with field values within the per-function bounds, decoding the encoding
yields the original value — without restriction for requests, and for
responses whenever bit-packed coil payloads (`ReadCoils`,
`ReadDiscreteInputs`) fill whole bytes; other coil-response lengths come
back zero-padded to the next byte boundary. -/
theorem C1_roundtrip :
    (∀ r : Request, r.valid → ¬ r.isCustom →
      (encodeRequest r).bind decodeRequest = .ok r) ∧
    (∀ s : Response, s.valid → ¬ s.isCustom → s.coilsAligned →
      (encodeResponse s).bind decodeResponse = .ok s) :=
  ⟨request_roundtrip, response_roundtrip⟩

/-- C1 (witness): the amended round-trip applied to a concrete request and
a concrete byte-aligned response. -/
theorem C1_roundtrip_witness :
    (encodeRequest (.WriteMultipleCoils 7 [true, false, true])).bind decodeRequest =
      .ok (.WriteMultipleCoils 7 [true, false, true]) ∧
    (encodeResponse (.ReadCoils [true, false, true, false, false, true, false, true])).bind
        decodeResponse =
      .ok (.ReadCoils [true, false, true, false, false, true, false, true]) :=
  ⟨C1_roundtrip.1 (.WriteMultipleCoils 7 [true, false, true])
      (by norm_num [Request.valid]) (by simp [Request.isCustom]),
    C1_roundtrip.2 (.ReadCoils [true, false, true, false, false, true, false, true])
      (by norm_num [Response.valid]) (by simp [Response.isCustom])
      (by norm_num [Response.coilsAligned])⟩

/-- C2: a valid RTU frame decodes successfully, and flipping any single
bit of any payload byte (frame position `2 + k`, bit `j`) makes RTU decode
fail with `ChecksumMismatch` — deterministically, for every such frame,
byte and bit. -/
theorem C2_checksum_rejection (addr fc : Nat) (payload : List Nat) (k j : Nat)
    (haddr : addr < 256) (hfc : fc < 256) (hp : ∀ b ∈ payload, b < 256)
    (hk : k < payload.length) (hj : j < 8) :
    rtuDecode (rtuEncode addr (fc :: payload)) = .ok (addr, fc :: payload) ∧
    rtuDecode (flipBit (rtuEncode addr (fc :: payload)) (2 + k) j) =
      .error .ChecksumMismatch := by
  constructor
  · exact rtuDecode_rtuEncode addr (fc :: payload) (by simp)
  · refine rtuDecode_flipBit addr (fc :: payload) (2 + k) j (by simp) ?_ ?_ hj
    · intro b hb
      simp only [List.mem_cons] at hb
      rcases hb with h | h | h
      · omega
      · omega
      · exact hp b h
    · simp
      omega

/-- C2 (witness): flipping bit 0 of the first payload byte of the frame
for `[addr=1] ++ [0x03, 0x00, 0x00, 0x00, 0x0A]` is rejected with
`ChecksumMismatch`, while the intact frame decodes. -/
theorem C2_checksum_rejection_witness :
    rtuDecode (rtuEncode 1 (0x03 :: [0x00, 0x00, 0x00, 0x0A])) =
      .ok (1, 0x03 :: [0x00, 0x00, 0x00, 0x0A]) ∧
    rtuDecode (flipBit (rtuEncode 1 (0x03 :: [0x00, 0x00, 0x00, 0x0A])) (2 + 0) 0) =
      .error .ChecksumMismatch :=
  C2_checksum_rejection 1 0x03 [0x00, 0x00, 0x00, 0x0A] 0 0
    (by norm_num) (by norm_num) (by decide) (by norm_num) (by norm_num)

set_option maxRecDepth 100000 in
/-- C3: CRC16 of the reference vector `[0x01, 0x03, 0x00, 0x00, 0x00,
0x0A]` is 0xCDC5, and the RTU encoder appends that CRC low byte first
(`..., 0xC5, 0xCD`). -/
theorem C3_crc_reference :
    crc16 [0x01, 0x03, 0x00, 0x00, 0x00, 0x0A] = 0xCDC5 ∧
    rtuEncode 0x01 [0x03, 0x00, 0x00, 0x00, 0x0A] =
      [0x01, 0x03, 0x00, 0x00, 0x00, 0x0A, 0xC5, 0xCD] := by
  constructor
  · decide
  · decide

/-- C4: for every 16-bit address, encoding `ReadHoldingRegisters(addr, 0)`
and `ReadHoldingRegisters(addr, 126)` fails with `InvariantViolation`,
while `ReadHoldingRegisters(addr, 125)` succeeds: the 1-125 read-registers
quantity bound is enforced at encode time. -/
theorem C4_read_holding_bounds (a : Nat) (ha : a < 65536) :
    encodeRequest (.ReadHoldingRegisters a 0) = .error .InvariantViolation ∧
    encodeRequest (.ReadHoldingRegisters a 126) = .error .InvariantViolation ∧
    encodeRequest (.ReadHoldingRegisters a 125) =
      .ok [0x03, a / 256, a % 256, 0x00, 125] := by
  refine ⟨?_, ?_, ?_⟩ <;> norm_num [encodeRequest, be16]

/-- C4 (witness): the bounds at address 7. -/
theorem C4_read_holding_bounds_witness :
    encodeRequest (.ReadHoldingRegisters 7 0) = .error .InvariantViolation ∧
    encodeRequest (.ReadHoldingRegisters 7 126) = .error .InvariantViolation ∧
    encodeRequest (.ReadHoldingRegisters 7 125) =
      .ok [0x03, 7 / 256, 7 % 256, 0x00, 125] :=
  C4_read_holding_bounds 7 (by norm_num)

/-- C5: encoding `WriteMultipleCoils(0, [t,f,t,f,f,t,f,f,t])` (9 coils)
transmits quantity 9, byte-count 2 and payload bytes `[0x25, 0x01]`; in
general the transmitted quantity is the coil-slice length and bit `j` of
packed byte `k` is coil `8k + j` (LSB-first), with absent coils (the
unused high bits of the final byte) packed as 0. -/
theorem C5_bit_packing :
    encodeRequest (.WriteMultipleCoils 0
        [true, false, true, false, false, true, false, false, true]) =
      .ok [0x0F, 0x00, 0x00, 0x00, 0x09, 0x02, 0x25, 0x01] ∧
    (∀ (a : Nat) (coils : List Bool), 1 ≤ coils.length → coils.length ≤ 1968 →
      encodeRequest (.WriteMultipleCoils a coils) =
        .ok (0x0F :: (be16 a ++ be16 coils.length ++
          ((coils.length + 7) / 8 :: packCoils coils)))) ∧
    (∀ (bs : List Bool) (k j : Nat), k < (packCoils bs).length → j < 8 →
      ((packCoils bs).getD k 0).testBit j = bs.getD (8 * k + j) false) := by
  refine ⟨by decide, ?_, packCoils_testBit⟩
  intro a coils h1 h2
  simp [encodeRequest, h1, h2]

/-- C5 (witness): the packing law applied concretely: bit 0 of byte 0 is
coil 0 and bit 0 of byte 1 is coil 8, for the 9-coil example. -/
theorem C5_bit_packing_witness :
    encodeRequest (.WriteMultipleCoils 3 [true, true]) =
      .ok (0x0F :: (be16 3 ++ be16 2 ++ ((2 + 7) / 8 :: packCoils [true, true]))) ∧
    ((packCoils [true, false, true, false, false, true, false, false, true]).getD 1 0).testBit 0 =
      ([true, false, true, false, false, true, false, false, true].getD (8 * 1 + 0) false) :=
  ⟨C5_bit_packing.2.1 3 [true, true] (by norm_num) (by norm_num),
    C5_bit_packing.2.2 [true, false, true, false, false, true, false, false, true]
      1 0 (by decide) (by norm_num)⟩

/-- C6: decoding the response bytes `[0x83, 0x02]` yields the error-typed
result `ServerException IllegalDataAddress` (not a `MalformedFrame` and
not a success); in general, whenever the first response byte has its high
bit set, the single remaining byte is decoded as an `Exception` code. -/
theorem C6_exception_distinction :
    decodeResponse [0x83, 0x02] = .error (.ServerException .IllegalDataAddress) ∧
    (∀ (fc e : Nat) (ex : Exception), 0x80 ≤ fc → fc < 256 →
      Exception.fromCode e = some ex →
      decodeResponse [fc, e] = .error (.ServerException ex)) := by
  constructor
  · decide
  · intro fc e ex h1 h2 h3
    simp [decodeResponse, h1, h3]

/-- C6 (witness): the general exception-decode rule at `[0x84, 0x0B]`. -/
theorem C6_exception_distinction_witness :
    decodeResponse [0x84, 0x0B] = .error (.ServerException .GatewayTargetDevice) :=
  C6_exception_distinction.2 0x84 0x0B .GatewayTargetDevice
    (by norm_num) (by norm_num) (by decide)

/-- C7: for every byte slice whose first byte is a function code with no
typed variant (high bit clear, not one of the nine typed codes), PDU
decode succeeds in both directions and returns `Custom(code, rest)`. -/
theorem C7_custom_fallback (fc : Nat) (rest : List Nat) (hfc : fc < 0x80)
    (hunknown : fc ∉ ([0x01, 0x02, 0x03, 0x04, 0x05, 0x06, 0x0F, 0x10, 0x17] : List Nat)) :
    decodeRequest (fc :: rest) = .ok (.Custom fc rest) ∧
    decodeResponse (fc :: rest) = .ok (.Custom fc rest) := by
  simp only [List.mem_cons, List.mem_singleton, not_or] at hunknown
  obtain ⟨h1, h2, h3, h4, h5, h6, h7, h8, h9⟩ := hunknown
  constructor
  · simp [decodeRequest, h1, h2, h3, h4, h5, h6, h7, h8, h9]
  · simp [decodeResponse, h1, h2, h3, h4, h5, h6, h7, h8, h9, Nat.not_le.mpr hfc]

/-- C7 (witness): function code 0x2B decodes to `Custom(0x2B, payload)`. -/
theorem C7_custom_fallback_witness :
    decodeRequest (0x2B :: [0x0E, 0x01]) = .ok (.Custom 0x2B [0x0E, 0x01]) ∧
    decodeResponse (0x2B :: [0x0E, 0x01]) = .ok (.Custom 0x2B [0x0E, 0x01]) :=
  C7_custom_fallback 0x2B [0x0E, 0x01] (by norm_num) (by decide)

/-- C8: the `Exception` type has exactly nine values; each has one fixed
numeric code in the (non-contiguous) range 0x01-0x0B, codes are distinct,
and every value has a (nonempty) fixed human-readable description —
`Display` is total over the nine values. -/
theorem C8_exception_enum :
    Fintype.card Exception = 9 ∧
    (∀ e : Exception, 0x01 ≤ e.code ∧ e.code ≤ 0x0B) ∧
    Function.Injective Exception.code ∧
    (∀ e : Exception, e.description ≠ "") := by
  refine ⟨by decide, by decide, ?_, by decide⟩
  intro a b h
  revert h
  cases a <;> cases b <;> decide

/-- C8 (witness): the injectivity conjunct applied at a concrete pair of
exception values. -/
theorem C8_exception_enum_witness :
    Exception.IllegalFunction = Exception.IllegalFunction :=
  C8_exception_enum.2.2.1
    (rfl : Exception.code .IllegalFunction = Exception.code .IllegalFunction)

/-- C9 (counterexample): the claim that an out-of-range-quantity `Request`
cannot exist is false: `ReadHoldingRegisters 0 0` is a well-typed
`Request` value violating the 1-125 bound; the error only arises when it
is encoded. -/
theorem C9_construction_counterexample :
    ¬ Request.valid (.ReadHoldingRegisters 0 0) ∧
    encodeRequest (.ReadHoldingRegisters 0 0) = .error .InvariantViolation := by
  constructor
  · simp [Request.valid]
  · decide

/-- C9 (amended): quantity invariants are enforced at encode time, not at
construction time: a `Request` carrying an out-of-range quantity (or item
slice) can be built, and encoding it fails with `InvariantViolation`. -/
theorem C9_encode_time_enforcement :
    (∀ a q : Nat, (q = 0 ∨ 125 < q) →
      encodeRequest (.ReadHoldingRegisters a q) = .error .InvariantViolation ∧
      encodeRequest (.ReadInputRegisters a q) = .error .InvariantViolation) ∧
    (∀ a q : Nat, (q = 0 ∨ 2000 < q) →
      encodeRequest (.ReadCoils a q) = .error .InvariantViolation ∧
      encodeRequest (.ReadDiscreteInputs a q) = .error .InvariantViolation) ∧
    (∀ (a : Nat) (coils : List Bool), (coils.length = 0 ∨ 1968 < coils.length) →
      encodeRequest (.WriteMultipleCoils a coils) = .error .InvariantViolation) ∧
    (∀ (a : Nat) (ws : List Nat), (ws.length = 0 ∨ 123 < ws.length) →
      encodeRequest (.WriteMultipleRegisters a ws) = .error .InvariantViolation) := by
  refine ⟨fun a q hq => ⟨?_, ?_⟩, fun a q hq => ⟨?_, ?_⟩,
      fun a coils hq => ?_, fun a ws hq => ?_⟩ <;>
    · simp only [encodeRequest]
      rw [if_neg (by omega)]

/-- C9 (witness): the enforcement at concrete out-of-range values. -/
theorem C9_encode_time_enforcement_witness :
    (encodeRequest (.ReadHoldingRegisters 0 126) = .error .InvariantViolation ∧
      encodeRequest (.ReadInputRegisters 0 126) = .error .InvariantViolation) ∧
    encodeRequest (.WriteMultipleCoils 0 []) = .error .InvariantViolation :=
  ⟨C9_encode_time_enforcement.1 0 126 (by norm_num),
    C9_encode_time_enforcement.2.2.1 0 [] (by norm_num)⟩

/-- C10: no `Exception` value has numeric code 0x07 or 0x09: the nine
codes are exactly {0x01..0x06, 0x08, 0x0A, 0x0B}, and an
exception-response byte carrying 0x07 or 0x09 has no typed `Exception` it
can decode to. -/
theorem C10_missing_codes :
    (∀ e : Exception, e.code ≠ 0x07 ∧ e.code ≠ 0x09) ∧
    Finset.univ.image Exception.code =
      ({0x01, 0x02, 0x03, 0x04, 0x05, 0x06, 0x08, 0x0A, 0x0B} : Finset Nat) ∧
    Exception.fromCode 0x07 = none ∧ Exception.fromCode 0x09 = none := by
  refine ⟨by decide, by decide, rfl, rfl⟩

end ModbusCore
